import Mathlib

/-!
# Verification of the `RayExecutor` adapter
  (src/python/ray/util/concurrent/futures/ray_executor.py)

Shallow embedding of the executor adapter.  Python values are abstracted as
integers, a raised exception as a `Nat` code, so a task outcome is
`Except Exc Val`.  The Ray backend (out of scope of the adapter itself) is
modelled by its contract: a remote invocation of a zero-argument closure
produces a future that resolves to the closure's outcome; the futures live in
a `store`, indexed by their id, together with a `ray_destroyed` flag for
`ray.shutdown()`.  Wall-clock time is abstracted by a completion-time map
`ctime : Nat → Nat` assigning to each future id the absolute time at which it
resolves; a blocking wait with absolute deadline `d` on future `f` succeeds
iff `ctime f ≤ d`.
-/

namespace RayExec

/-- Abstract Python value. -/
abbrev Val := Int

/-- Abstract raised-exception code. -/
abbrev Exc := Nat

/-- Outcome of running a task body: normal return value or raised exception. -/
abbrev Outcome := Except Exc Val

deriving instance DecidableEq for Except

/-- A callable, as its evaluation map on positional-argument tuples. -/
abbrev Fn := List Val → Outcome

/-- Models `functools.partial(fn, *args)`: a zero-argument closure. -/
def freezeArgs (fn : Fn) (args : List Val) : Unit → Outcome :=
  fun _ => fn args

/-- `remote_fn` (ray_executor.py lines 92-94): the remote wrapper simply
calls the closure and returns its outcome. -/
def remote_fn (c : Unit → Outcome) : Outcome := c ()

/-- `ExecutorActor.actor_function` (lines 106-112): a pool worker simply
calls the closure and returns its outcome. -/
def actor_function (c : Unit → Outcome) : Outcome := c ()

/-- Errors the adapter raises synchronously: `ValueError` for a bad
constructor argument, `RuntimeError` from `_check_shutdown_lock`. -/
inductive ExecError
  | invalidArgument
  | illegalState
deriving DecidableEq, Repr

/-- State of the fixed worker pool (`ray.util.actor_pool.ActorPool`).
The pool's own code is not part of the sources; its bookkeeping is
modelled from the spec: a fixed set of worker handles (`idle_actors` at
construction), a monotonically increasing `next_task_index` correlating
submissions with result handles through `index_to_future`, and the list of
submitted-but-not-yet-retrieved future ids (`outstanding`). -/
structure ActorPool where
  idle_actors : List Nat
  next_task_index : Nat
  index_to_future : List Nat
  outstanding : List Nat
deriving DecidableEq, Repr

/-- State of one `RayExecutor` instance together with the backend it talks
to.  `store` and `ray_destroyed` model the Ray backend: `store` maps a
future id (its index) to the outcome that future resolves to, and
`ray_destroyed` records whether `ray.shutdown()` has torn the backend
down.  The remaining fields mirror the instance attributes
`_shutdown_ray`, `_shutdown_lock`, `futures` and `_actor_pool`. -/
structure RayExecutor where
  store : List Outcome
  shutdown_ray : Bool
  shutdown_lock : Bool
  futures : List Nat
  actor_pool : Option ActorPool
  ray_destroyed : Bool
deriving DecidableEq, Repr

/-- `RayExecutor.__init__` (lines 59-120): rejects `max_workers < 1`,
builds a pool of exactly `max_workers` actor handles when `max_workers`
is given, otherwise no pool.  `ray.init` attaches to a live backend. -/
def RayExecutor.init (max_workers : Option Int) (shutdown_ray : Bool) :
    Except ExecError RayExecutor :=
  match max_workers with
  | none =>
      .ok { store := [], shutdown_ray := shutdown_ray, shutdown_lock := false,
            futures := [], actor_pool := none, ray_destroyed := false }
  | some n =>
      if n < 1 then .error .invalidArgument
      else
        .ok { store := [], shutdown_ray := shutdown_ray, shutdown_lock := false,
              futures := [],
              actor_pool := some { idle_actors := List.range n.toNat,
                                   next_task_index := 0,
                                   index_to_future := [],
                                   outstanding := [] },
              ray_destroyed := false }

/-- Body of `RayExecutor.submit` after the shutdown-lock check
(lines 146-171).  Pool branch: the pool runs
`actor_function (freezeArgs fn args)` on a worker, producing a fresh
future id; the returned handle is read back through
`_index_to_future[_next_task_index - 1]`.  No-pool branch: an independent
remote call `remote_fn (freezeArgs fn args)`.  Either way the returned
handle is appended to `futures`. -/
def RayExecutor.submitCore (s : RayExecutor) (fn : Fn) (args : List Val) :
    RayExecutor × Nat :=
  match s.actor_pool with
  | some pool =>
      let outcome := actor_function (freezeArgs fn args)
      let fid := s.store.length
      let pool' : ActorPool :=
        { pool with next_task_index := pool.next_task_index + 1,
                    index_to_future := pool.index_to_future ++ [fid],
                    outstanding := pool.outstanding ++ [fid] }
      let oref := pool'.index_to_future.getD (pool'.next_task_index - 1) 0
      ({ s with store := s.store ++ [outcome], actor_pool := some pool',
                futures := s.futures ++ [oref] }, oref)
  | none =>
      let outcome := remote_fn (freezeArgs fn args)
      let fid := s.store.length
      ({ s with store := s.store ++ [outcome],
                futures := s.futures ++ [fid] }, fid)

/-- `RayExecutor.submit` (lines 122-171): `_check_shutdown_lock` then the
submission body. -/
def RayExecutor.submit (s : RayExecutor) (fn : Fn) (args : List Val) :
    Except ExecError (RayExecutor × Nat) :=
  if s.shutdown_lock then .error .illegalState
  else .ok (s.submitCore fn args)

/-- `future.result()` on the handle with id `fid`: the outcome the backend
stored for it, unavailable once the backend has been torn down. -/
def RayExecutor.result (s : RayExecutor) (fid : Nat) : Option Outcome :=
  if s.ray_destroyed then none else s.store.get? fid

/-- Well-formedness of the pool bookkeeping: the next task index is the
number of futures issued so far (holds at construction and is preserved by
every operation). -/
def RayExecutor.poolWF (s : RayExecutor) : Bool :=
  match s.actor_pool with
  | some p => p.next_task_index == p.index_to_future.length
  | none => true

/-- Observable side effects of one `shutdown` call: the futures on which
`cancel()` was attempted, the futures the wait loop inspected (blocking on
those still running), and whether `ray.shutdown()` was invoked. -/
structure ShutdownEffects where
  cancel_attempted : List Nat
  waited_on : List Nat
  ray_teardown : Bool
deriving DecidableEq, Repr

/-- `RayExecutor.shutdown` (lines 281-308).  Only when `_shutdown_ray` is
true: set the lock, optionally attempt to cancel every outstanding future,
optionally iterate the wait loop over them, and tear the backend down.
In both branches the `futures` list is cleared. -/
def RayExecutor.shutdown (s : RayExecutor) (wait : Bool) (cancel_futures : Bool) :
    RayExecutor × ShutdownEffects :=
  if s.shutdown_ray then
    ({ s with shutdown_lock := true, ray_destroyed := true, futures := [] },
     { cancel_attempted := if cancel_futures then s.futures else [],
       waited_on := if wait then s.futures else [],
       ray_teardown := true })
  else
    ({ s with futures := [] },
     { cancel_attempted := [], waited_on := [], ray_teardown := false })

/-- Length of the shortest of the given iterables (`zip` stops there);
`zip()` of no iterables is empty. -/
def minLen (its : List (List Val)) : Nat :=
  match its with
  | [] => 0
  | l :: ls => ls.foldl (fun m x => min m x.length) l.length

/-- `zip(*iterables)` (line 244/261): the positional zip of the iterables,
bounded by the shortest one; the i-th tuple collects the i-th element of
each iterable. -/
def pyZip (its : List (List Val)) : List (List Val) :=
  (List.range (minLen its)).map (fun i => its.map (fun l => l.getD i 0))

/-- The eager submission loop of `map` (lines 244-245 and 261): one
`submit` per zipped argument tuple, returning the final state and the
future ids in submission order. -/
def RayExecutor.submitAll : RayExecutor → Fn → List (List Val) → RayExecutor × List Nat
  | s, _, [] => (s, [])
  | s, fn, args :: rest =>
      let p := s.submitCore fn args
      let q := submitAll p.1 fn rest
      (q.1, p.2 :: q.2)

/-- Whether a blocking wait with the given absolute deadline on a future
completing at absolute time `c` times out: never without a deadline,
otherwise exactly when the completion time exceeds the deadline.  (The
source passes the *remaining* budget `end_time - time.monotonic()` to each
wait, so a wait started at time `now` succeeds iff
`c ≤ now + (end_time - now) = end_time`.) -/
def waitTimesOut (deadline : Option Nat) (c : Nat) : Bool :=
  match deadline with
  | none => false
  | some d => decide (d < c)

/-- The no-pool `result_iterator` (lines 263-277): `fs.reverse()` followed
by repeated `fs.pop()` (pop from the tail) consumes the submitted futures
front to back in submission order; each is awaited with the remaining
budget via `_result_or_cancel` (which also cancels the future afterwards,
a no-op on a finished one), and a timeout raises `TimeoutError` there,
the `finally` block cancelling the unconsumed futures.  Returns the ids
yielded (in order) and whether `TimeoutError` was raised. -/
def noPoolDrain (ctime : Nat → Nat) (deadline : Option Nat) :
    List Nat → List Nat × Bool
  | [] => ([], false)
  | f :: rest =>
      if waitTimesOut deadline (ctime f) then ([], true)
      else
        let q := noPoolDrain ctime deadline rest
        (f :: q.1, q.2)

/-- Modelled from the spec: the pool's "get next completed" primitive
(`ActorPool.get_next`, whose code is not among the sources) blocks until
at least one outstanding task completes or the deadline elapses; the next
task to complete is an outstanding one of minimal completion time.
`selectNext` returns that task and the remaining outstanding list. -/
def selectNext (ctime : Nat → Nat) : List Nat → Option (Nat × List Nat)
  | [] => none
  | f :: fs =>
      match selectNext ctime fs with
      | none => some (f, [])
      | some (g, rest) =>
          if ctime f ≤ ctime g then some (f, fs) else some (g, f :: rest)

theorem selectNext_cons_isSome (ctime : Nat → Nat) (a : Nat) (as : List Nat) :
    (selectNext ctime (a :: as)).isSome := by
  unfold selectNext
  rcases selectNext ctime as with _ | ⟨g, r⟩
  · simp
  · by_cases hle : ctime a ≤ ctime g <;> simp [hle]

theorem selectNext_perm (ctime : Nat → Nat) :
    ∀ (l : List Nat) (f : Nat) (rest : List Nat),
      selectNext ctime l = some (f, rest) → List.Perm l (f :: rest)
  | [], f, rest, h => by simp [selectNext] at h
  | a :: as, f, rest, h => by
      unfold selectNext at h
      rcases hs : selectNext ctime as with _ | ⟨g, r⟩ <;> rw [hs] at h
      · cases as with
        | nil =>
            simp at h
            obtain ⟨rfl, rfl⟩ := h
            exact List.Perm.refl _
        | cons b bs =>
            have hbs := selectNext_cons_isSome ctime b bs
            rw [hs] at hbs
            simp at hbs
      · have hp := selectNext_perm ctime as g r hs
        by_cases hle : ctime a ≤ ctime g
        · simp [hle] at h
          obtain ⟨rfl, rfl⟩ := h
          exact List.Perm.refl _
        · simp [hle] at h
          obtain ⟨rfl, rfl⟩ := h
          exact List.Perm.trans (List.Perm.cons a hp) (List.Perm.swap g a r)

theorem selectNext_min (ctime : Nat → Nat) :
    ∀ (l : List Nat) (f : Nat) (rest : List Nat),
      selectNext ctime l = some (f, rest) → ∀ g ∈ l, ctime f ≤ ctime g
  | [], f, rest, h => by simp [selectNext] at h
  | a :: as, f, rest, h => by
      unfold selectNext at h
      rcases hs : selectNext ctime as with _ | ⟨g, r⟩ <;> rw [hs] at h
      · cases as with
        | nil =>
            simp at h
            obtain ⟨rfl, rfl⟩ := h
            intro x hx
            simp at hx
            subst hx
            exact le_refl _
        | cons b bs =>
            have hbs := selectNext_cons_isSome ctime b bs
            rw [hs] at hbs
            simp at hbs
      · have hm := selectNext_min ctime as g r hs
        by_cases hle : ctime a ≤ ctime g
        · simp [hle] at h
          obtain ⟨rfl, rfl⟩ := h
          intro x hx
          rcases List.mem_cons.mp hx with rfl | hx
          · exact le_refl _
          · exact le_trans hle (hm x hx)
        · simp [hle] at h
          obtain ⟨rfl, rfl⟩ := h
          intro x hx
          rcases List.mem_cons.mp hx with rfl | hx
          · exact le_of_lt (Nat.lt_of_not_le hle)
          · exact hm x hx

theorem selectNext_length (ctime : Nat → Nat) (l : List Nat) (f : Nat)
    (rest : List Nat) (h : selectNext ctime l = some (f, rest)) :
    rest.length < l.length := by
  have := (selectNext_perm ctime l f rest h).length_eq
  simp [this]

/-- The pool `result_iterator` (lines 247-258): while the pool has an
outstanding task, yield `get_next` with the remaining budget, re-raising
a deadline overrun as `TimeoutError`.  Returns the ids yielded (in
completion order) and whether `TimeoutError` was raised. -/
def poolDrain (ctime : Nat → Nat) (deadline : Option Nat)
    (outstanding : List Nat) : List Nat × Bool :=
  match h : selectNext ctime outstanding with
  | none => ([], false)
  | some (f, rest) =>
      if waitTimesOut deadline (ctime f) then ([], true)
      else
        let q := poolDrain ctime deadline rest
        (f :: q.1, q.2)
termination_by outstanding.length
decreasing_by exact selectNext_length ctime outstanding f rest h

/-- `RayExecutor.map` (lines 187-279): check the shutdown lock, fix
`end_time = timeout + time.monotonic()` (the call happens at absolute
time `t0`), submit one task per zipped tuple eagerly, and return the
post-submission state together with the value of fully consuming the
returned iterator: the yielded future ids and whether `TimeoutError`
was raised.  With a pool the iterator drains every outstanding pool
task via `get_next`; without one it drains this call's futures in
submission order. -/
def RayExecutor.map (s : RayExecutor) (ctime : Nat → Nat) (t0 : Nat)
    (fn : Fn) (iterables : List (List Val)) (timeout : Option Nat) :
    Except ExecError (RayExecutor × List Nat × Bool) :=
  if s.shutdown_lock then .error .illegalState
  else
    let end_time := timeout.map (fun t => t + t0)
    let p := s.submitAll fn (pyZip iterables)
    match p.1.actor_pool with
    | some pool => .ok (p.1, poolDrain ctime end_time pool.outstanding)
    | none => .ok (p.1, noPoolDrain ctime end_time p.2)

/-- The list of futures the iterator returned by `map` awaits: every
outstanding pool task when a pool exists, this call's submissions
otherwise. -/
def RayExecutor.mapAwaitList (s : RayExecutor) (fn : Fn)
    (iterables : List (List Val)) : List Nat :=
  let p := s.submitAll fn (pyZip iterables)
  match p.1.actor_pool with
  | some pool => pool.outstanding
  | none => p.2

/-- One executor API call, for reasoning over call sequences. -/
inductive Op
  | submitOp (fn : Fn) (args : List Val)
  | mapOp (ctime : Nat → Nat) (t0 : Nat) (fn : Fn)
      (iterables : List (List Val)) (timeout : Option Nat)
  | shutdownOp (wait : Bool) (cancel_futures : Bool)

def Op.isShutdown : Op → Bool
  | shutdownOp _ _ => true
  | _ => false

/-- Apply one API call to the state (a call that raises leaves the state
unchanged). -/
def step (s : RayExecutor) : Op → RayExecutor
  | .submitOp fn args =>
      match s.submit fn args with
      | .ok p => p.1
      | .error _ => s
  | .mapOp ctime t0 fn its timeout =>
      match s.map ctime t0 fn its timeout with
      | .ok p => p.1
      | .error _ => s
  | .shutdownOp w c => (s.shutdown w c).1

/-- Apply a sequence of API calls. -/
def runOps (s : RayExecutor) (ops : List Op) : RayExecutor :=
  ops.foldl step s

/-! ## Supporting lemmas -/

theorem noPoolDrain_none (ctime : Nat → Nat) (fs : List Nat) :
    noPoolDrain ctime none fs = (fs, false) := by
  induction fs with
  | nil => rfl
  | cons f rest ih => simp [noPoolDrain, waitTimesOut, ih]

theorem noPoolDrain_timeout_iff (ctime : Nat → Nat) (d : Nat) (fs : List Nat) :
    (noPoolDrain ctime (some d) fs).2 = true ↔ ∃ f ∈ fs, d < ctime f := by
  induction fs with
  | nil => simp [noPoolDrain]
  | cons f rest ih =>
      by_cases ht : d < ctime f
      · simp [noPoolDrain, waitTimesOut, ht]
      · simp [noPoolDrain, waitTimesOut, ht, ih]

theorem noPoolDrain_yield_le (ctime : Nat → Nat) (d : Nat) (fs : List Nat) :
    ∀ f ∈ (noPoolDrain ctime (some d) fs).1, ctime f ≤ d := by
  induction fs with
  | nil => simp [noPoolDrain]
  | cons f rest ih =>
      by_cases ht : d < ctime f
      · simp [noPoolDrain, waitTimesOut, ht]
      · simp [noPoolDrain, waitTimesOut, ht]
        exact ⟨Nat.le_of_not_lt ht, ih⟩

theorem poolDrain_none_flag (ctime : Nat → Nat) (outs : List Nat) :
    (poolDrain ctime none outs).2 = false := by
  rw [poolDrain]
  split
  · rfl
  · rename_i f rest h
    simpa [waitTimesOut] using poolDrain_none_flag ctime rest
termination_by outs.length
decreasing_by exact selectNext_length _ _ _ _ (by assumption)

theorem poolDrain_none_perm (ctime : Nat → Nat) (outs : List Nat) :
    List.Perm (poolDrain ctime none outs).1 outs := by
  rw [poolDrain]
  split
  · rename_i h
    cases outs with
    | nil => exact List.Perm.refl _
    | cons a as =>
        have := selectNext_cons_isSome ctime a as
        rw [h] at this
        simp at this
  · rename_i f rest h
    have hp := selectNext_perm ctime outs f rest h
    have ih := poolDrain_none_perm ctime rest
    simp [waitTimesOut]
    exact List.Perm.trans (List.Perm.cons f ih) hp.symm
termination_by outs.length
decreasing_by exact selectNext_length _ _ _ _ (by assumption)

theorem poolDrain_subset (ctime : Nat → Nat) (dl : Option Nat) (outs : List Nat) :
    ∀ b ∈ (poolDrain ctime dl outs).1, b ∈ outs := by
  rw [poolDrain]
  split
  · simp
  · rename_i f rest h
    have hp := selectNext_perm ctime outs f rest h
    by_cases ht : waitTimesOut dl (ctime f)
    · simp [ht]
    · simp [ht]
      constructor
      · exact hp.symm.subset (List.mem_cons_self f rest)
      · intro b hb
        exact hp.symm.subset
          (List.mem_cons_of_mem f (poolDrain_subset ctime dl rest b hb))
termination_by outs.length
decreasing_by exact selectNext_length _ _ _ _ (by assumption)

theorem poolDrain_sorted (ctime : Nat → Nat) (dl : Option Nat) (outs : List Nat) :
    List.Pairwise (fun a b => ctime a ≤ ctime b) (poolDrain ctime dl outs).1 := by
  rw [poolDrain]
  split
  · simp
  · rename_i f rest h
    have hp := selectNext_perm ctime outs f rest h
    have hmin := selectNext_min ctime outs f rest h
    by_cases ht : waitTimesOut dl (ctime f)
    · simp [ht]
    · simp [ht]
      constructor
      · intro b hb
        exact hmin b (hp.symm.subset
          (List.mem_cons_of_mem f (poolDrain_subset ctime dl rest b hb)))
      · exact poolDrain_sorted ctime dl rest
termination_by outs.length
decreasing_by exact selectNext_length _ _ _ _ (by assumption)

theorem poolDrain_timeout_iff (ctime : Nat → Nat) (d : Nat) (outs : List Nat) :
    (poolDrain ctime (some d) outs).2 = true ↔ ∃ f ∈ outs, d < ctime f := by
  rw [poolDrain]
  split
  · rename_i h
    cases outs with
    | nil => simp
    | cons a as =>
        have := selectNext_cons_isSome ctime a as
        rw [h] at this
        simp at this
  · rename_i f rest h
    have hp := selectNext_perm ctime outs f rest h
    by_cases ht : d < ctime f
    · simp [waitTimesOut, ht]
      exact ⟨f, hp.symm.subset (List.mem_cons_self f rest), ht⟩
    · simp [waitTimesOut, ht]
      rw [poolDrain_timeout_iff ctime d rest]
      constructor
      · rintro ⟨b, hb, hd⟩
        exact ⟨b, hp.symm.subset (List.mem_cons_of_mem f hb), hd⟩
      · rintro ⟨b, hb, hd⟩
        rcases List.mem_cons.mp (hp.subset hb) with rfl | hb'
        · exact absurd hd ht
        · exact ⟨b, hb', hd⟩
termination_by outs.length
decreasing_by exact selectNext_length _ _ _ _ (by assumption)

theorem submitCore_futures (s : RayExecutor) (fn : Fn) (args : List Val) :
    ((s.submitCore fn args).1).futures = s.futures ++ [(s.submitCore fn args).2] := by
  rcases hp : s.actor_pool with _ | pool <;> simp [RayExecutor.submitCore, hp]

theorem submitCore_flags (s : RayExecutor) (fn : Fn) (args : List Val) :
    ((s.submitCore fn args).1).shutdown_ray = s.shutdown_ray ∧
    ((s.submitCore fn args).1).shutdown_lock = s.shutdown_lock ∧
    ((s.submitCore fn args).1).ray_destroyed = s.ray_destroyed ∧
    (((s.submitCore fn args).1).actor_pool).isSome = (s.actor_pool).isSome := by
  rcases hp : s.actor_pool with _ | pool <;> simp [RayExecutor.submitCore, hp]

theorem submitAll_futures (fn : Fn) :
    ∀ (l : List (List Val)) (s : RayExecutor),
      ((RayExecutor.submitAll s fn l).1).futures =
        s.futures ++ (RayExecutor.submitAll s fn l).2
  | [], s => by simp [RayExecutor.submitAll]
  | args :: rest, s => by
      simp only [RayExecutor.submitAll]
      rw [submitAll_futures fn rest ((s.submitCore fn args).1), submitCore_futures]
      simp

theorem submitAll_length (fn : Fn) :
    ∀ (l : List (List Val)) (s : RayExecutor),
      ((RayExecutor.submitAll s fn l).2).length = l.length
  | [], s => by simp [RayExecutor.submitAll]
  | args :: rest, s => by
      simp only [RayExecutor.submitAll, List.length_cons]
      rw [submitAll_length fn rest ((s.submitCore fn args).1)]

theorem submitAll_flags (fn : Fn) :
    ∀ (l : List (List Val)) (s : RayExecutor),
      ((RayExecutor.submitAll s fn l).1).shutdown_ray = s.shutdown_ray ∧
      ((RayExecutor.submitAll s fn l).1).shutdown_lock = s.shutdown_lock ∧
      ((RayExecutor.submitAll s fn l).1).ray_destroyed = s.ray_destroyed ∧
      (((RayExecutor.submitAll s fn l).1).actor_pool).isSome = (s.actor_pool).isSome
  | [], s => by simp [RayExecutor.submitAll]
  | args :: rest, s => by
      have h1 := submitCore_flags s fn args
      have h2 := submitAll_flags fn rest ((s.submitCore fn args).1)
      simp only [RayExecutor.submitAll]
      exact ⟨h2.1.trans h1.1, h2.2.1.trans h1.2.1,
             h2.2.2.1.trans h1.2.2.1, h2.2.2.2.trans h1.2.2.2⟩

theorem submitAll_noPool (fn : Fn) :
    ∀ (l : List (List Val)) (s : RayExecutor), s.actor_pool = none →
      RayExecutor.submitAll s fn l =
        ({ s with store := s.store ++ l.map (fun a => fn a),
                  futures := s.futures ++ List.range' s.store.length l.length },
         List.range' s.store.length l.length)
  | [], s, hp => by simp [RayExecutor.submitAll]
  | args :: rest, s, hp => by
      have hcore : s.submitCore fn args =
          ({ s with store := s.store ++ [fn args],
                    futures := s.futures ++ [s.store.length] }, s.store.length) := by
        simp [RayExecutor.submitCore, hp, remote_fn, freezeArgs]
      have ih := submitAll_noPool fn rest
          ({ s with store := s.store ++ [fn args],
                    futures := s.futures ++ [s.store.length] }) hp
      simp [RayExecutor.submitAll, hcore, ih, List.range'_succ]

theorem lookup_range' (d : Outcome) :
    ∀ (B A : List Outcome),
      (List.range' A.length B.length).map (fun fid => (A ++ B).getD fid d) = B
  | [], A => by simp
  | b :: bs, A => by
      have ih := lookup_range' d bs (A ++ [b])
      simp only [List.length_append, List.length_singleton] at ih
      simp only [List.length_cons, List.range'_succ, List.map_cons]
      have hhead : (A ++ b :: bs).getD A.length d = b := by
        rw [List.getD_eq_getElem?_getD, List.getElem?_append_right (le_refl A.length)]
        simp
      rw [hhead, show A ++ b :: bs = (A ++ [b]) ++ bs by simp, ih]

theorem minLen_singleton (xs : List Val) : minLen [xs] = xs.length := rfl

theorem pyZip_singleton (xs : List Val) : pyZip [xs] = xs.map (fun x => [x]) := by
  unfold pyZip
  rw [minLen_singleton]
  apply List.ext_getElem
  · simp
  · intro i h1 h2
    simp only [List.getElem_map, List.getElem_range, List.map_cons, List.map_nil]
    simp only [List.length_map, List.length_range] at h1
    rw [List.getD_eq_getElem xs 0 h1]

theorem pyZip_length (its : List (List Val)) : (pyZip its).length = minLen its := by
  simp [pyZip]

theorem init_ok_flags (mw : Option Int) (d : Bool) (s0 : RayExecutor)
    (h : RayExecutor.init mw d = .ok s0) :
    s0.shutdown_lock = false ∧ s0.shutdown_ray = d := by
  cases mw with
  | none =>
      simp [RayExecutor.init] at h
      rw [← h]
      exact ⟨rfl, rfl⟩
  | some n =>
      by_cases hn : n < 1
      · simp [RayExecutor.init, hn] at h
      · simp [RayExecutor.init, hn] at h
        rw [← h]
        exact ⟨rfl, rfl⟩

theorem map_ok_state (s : RayExecutor) (ctime : Nat → Nat) (t0 : Nat) (fn : Fn)
    (its : List (List Val)) (timeout : Option Nat) (h : s.shutdown_lock = false) :
    ∃ out, s.map ctime t0 fn its timeout =
      .ok ((s.submitAll fn (pyZip its)).1, out) := by
  rcases hq : ((s.submitAll fn (pyZip its)).1).actor_pool with _ | pool <;>
    simp [RayExecutor.map, h, hq]

theorem step_ray (s : RayExecutor) (op : Op) :
    (step s op).shutdown_ray = s.shutdown_ray := by
  cases op with
  | submitOp fn args =>
      by_cases h : s.shutdown_lock <;>
        simp [step, RayExecutor.submit, h, (submitCore_flags s fn args).1]
  | mapOp ctime t0 fn its timeout =>
      by_cases h : s.shutdown_lock
      · simp [step, RayExecutor.map, h]
      · obtain ⟨out, hout⟩ := map_ok_state s ctime t0 fn its timeout (by simp [h])
        simp [step, hout, (submitAll_flags fn (pyZip its) s).1]
  | shutdownOp w c =>
      by_cases h : s.shutdown_ray <;> simp [step, RayExecutor.shutdown, h]

theorem step_lock (s : RayExecutor) (op : Op) :
    (step s op).shutdown_lock =
      (s.shutdown_lock || (s.shutdown_ray && op.isShutdown)) := by
  cases op with
  | submitOp fn args =>
      by_cases h : s.shutdown_lock <;>
        simp [step, RayExecutor.submit, h, Op.isShutdown,
              (submitCore_flags s fn args).2.1]
  | mapOp ctime t0 fn its timeout =>
      by_cases h : s.shutdown_lock
      · simp [step, RayExecutor.map, h, Op.isShutdown]
      · obtain ⟨out, hout⟩ := map_ok_state s ctime t0 fn its timeout (by simp [h])
        simp [step, hout, Op.isShutdown, h, (submitAll_flags fn (pyZip its) s).2.1]
  | shutdownOp w c =>
      by_cases h : s.shutdown_ray <;>
        simp [step, RayExecutor.shutdown, h, Op.isShutdown]

theorem runOps_lock : ∀ (ops : List Op) (s : RayExecutor),
    (runOps s ops).shutdown_lock =
      (s.shutdown_lock || (s.shutdown_ray && ops.any Op.isShutdown))
  | [], s => by simp [runOps]
  | op :: ops, s => by
      have h1 := runOps_lock ops (step s op)
      rw [show runOps s (op :: ops) = runOps (step s op) ops from rfl, h1,
          step_lock, step_ray]
      cases s.shutdown_lock <;> cases s.shutdown_ray <;>
        cases hop : op.isShutdown <;> simp [hop]

theorem poolDrain_yield_le (ctime : Nat → Nat) (d : Nat) (outs : List Nat) :
    ∀ f ∈ (poolDrain ctime (some d) outs).1, ctime f ≤ d := by
  rw [poolDrain]
  split
  · simp
  · rename_i f rest h
    by_cases ht : d < ctime f
    · simp [waitTimesOut, ht]
    · simp [waitTimesOut, ht]
      exact ⟨Nat.le_of_not_lt ht, poolDrain_yield_le ctime d rest⟩
termination_by outs.length
decreasing_by exact selectNext_length _ _ _ _ (by assumption)

/-! ## Concrete states used by the witnesses -/

/-- A fresh two-worker pool. -/
def pool0 : ActorPool :=
  { idle_actors := [0, 1], next_task_index := 0,
    index_to_future := [], outstanding := [] }

/-- A fresh executor with no fixed pool. -/
def exNoPool : RayExecutor :=
  { store := [], shutdown_ray := false, shutdown_lock := false,
    futures := [], actor_pool := none, ray_destroyed := false }

/-- A fresh executor with a two-worker fixed pool. -/
def exPool : RayExecutor :=
  { store := [], shutdown_ray := false, shutdown_lock := false,
    futures := [], actor_pool := some pool0, ray_destroyed := false }

/-- A fresh executor with `shutdown_ray = True`. -/
def exShutRay : RayExecutor :=
  { store := [], shutdown_ray := true, shutdown_lock := false,
    futures := [], actor_pool := none, ray_destroyed := false }

/-- An executor whose shutdown lock is set. -/
def exLocked : RayExecutor :=
  { store := [], shutdown_ray := true, shutdown_lock := true,
    futures := [], actor_pool := none, ray_destroyed := true }

/-- The squaring task of the test suite. -/
def sqTask : Fn := fun args => Except.ok (args.getD 0 0 * args.getD 0 0)

/-! ## Claim theorems -/

/-- C1: for every callable `fn` and arguments `args`, the result handle
returned by `submit fn args` resolves to `fn args`'s outcome — its return
value, or the exception it raised — in both the fixed-pool and the
direct-remote-call configuration (the state may hold a pool or not). -/
theorem C1_submit_result_is_fn_args (s : RayExecutor) (fn : Fn) (args : List Val)
    (hlock : s.shutdown_lock = false) (hdest : s.ray_destroyed = false)
    (hwf : s.poolWF = true) :
    ∃ s' fid, s.submit fn args = .ok (s', fid) ∧
      s'.result fid = some (fn args) := by
  have hsub : s.submit fn args = .ok (s.submitCore fn args) := by
    simp [RayExecutor.submit, hlock]
  refine ⟨(s.submitCore fn args).1, (s.submitCore fn args).2, hsub, ?_⟩
  rcases hp : s.actor_pool with _ | pool
  · simp [RayExecutor.submitCore, hp, RayExecutor.result, hdest, remote_fn,
          freezeArgs, List.get?_eq_getElem?, List.getElem?_concat_length]
  · have hn : pool.next_task_index = pool.index_to_future.length := by
      simpa [RayExecutor.poolWF, hp] using hwf
    simp [RayExecutor.submitCore, hp, RayExecutor.result, hdest, actor_function,
          freezeArgs, hn, List.getD_eq_getElem?_getD, List.getElem?_concat_length,
          List.get?_eq_getElem?]

/-- C1 witness: submitting the squaring task with argument 3 to a fresh
pool executor yields a handle resolving to 9. -/
theorem C1_submit_result_is_fn_args_witness :
    ∃ s' fid, exPool.submit sqTask [3] = .ok (s', fid) ∧
      s'.result fid = some (sqTask [3]) :=
  C1_submit_result_is_fn_args exPool sqTask [3] rfl rfl rfl

/-- C2: with no fixed pool configured, fully consuming the sequence
returned by `map fn xs` succeeds without timeout and yields, in the
positional order of the inputs, exactly the outcome of `fn [x]` for each
`x` — element for element the builtin `map`. -/
theorem C2_map_noPool_submission_order (s : RayExecutor) (ctime : Nat → Nat)
    (t0 : Nat) (fn : Fn) (xs : List Val)
    (hpool : s.actor_pool = none) (hlock : s.shutdown_lock = false) :
    ∃ s' fids, s.map ctime t0 fn [xs] none = .ok (s', fids, false) ∧
      fids.map (fun fid => s'.store.getD fid (Except.error 0)) =
        xs.map (fun x => fn [x]) := by
  have hsub := submitAll_noPool fn (pyZip [xs]) s hpool
  refine ⟨{ s with store := s.store ++ (pyZip [xs]).map (fun a => fn a),
                   futures := s.futures ++
                     List.range' s.store.length (pyZip [xs]).length },
          List.range' s.store.length (pyZip [xs]).length, ?_, ?_⟩
  · simp [RayExecutor.map, hlock, hsub, hpool, noPoolDrain_none]
  · have h1 := lookup_range' (Except.error 0) ((pyZip [xs]).map (fun a => fn a)) s.store
    rw [List.length_map] at h1
    rw [h1, pyZip_singleton, List.map_map]
    rfl

/-- C2 witness: mapping the squaring task over `[2, 3]` on a fresh
pool-less executor. -/
theorem C2_map_noPool_submission_order_witness :
    ∃ s' fids, exNoPool.map (fun f => f) 0 sqTask [[2, 3]] none =
        .ok (s', fids, false) ∧
      fids.map (fun fid => s'.store.getD fid (Except.error 0)) =
        [(2 : Val), 3].map (fun x => sqTask [x]) :=
  C2_map_noPool_submission_order exNoPool (fun f => f) 0 sqTask [2, 3] rfl rfl

/-- C3: with a fixed pool, fully consuming the sequence returned by `map`
yields every outstanding pool task exactly once (a permutation), ordered
by completion time — completion order, independent of submission order
(`get_next` modelled from the spec as the next-completed primitive). -/
theorem C3_map_pool_completion_order (s : RayExecutor) (pool : ActorPool)
    (ctime : Nat → Nat) (t0 : Nat) (fn : Fn) (its : List (List Val))
    (hpool : s.actor_pool = some pool) (hlock : s.shutdown_lock = false) :
    ∃ s' pool' yielded,
      s.map ctime t0 fn its none = .ok (s', yielded, false) ∧
      s'.actor_pool = some pool' ∧
      List.Perm yielded pool'.outstanding ∧
      List.Pairwise (fun a b => ctime a ≤ ctime b) yielded := by
  have hiso := (submitAll_flags fn (pyZip its) s).2.2.2
  rw [hpool] at hiso
  rcases hq : ((s.submitAll fn (pyZip its)).1).actor_pool with _ | pool'
  · rw [hq] at hiso
    simp at hiso
  · refine ⟨(s.submitAll fn (pyZip its)).1, pool',
            (poolDrain ctime none pool'.outstanding).1, ?_, hq,
            poolDrain_none_perm ctime pool'.outstanding,
            poolDrain_sorted ctime none pool'.outstanding⟩
    have hflag := poolDrain_none_flag ctime pool'.outstanding
    simp [RayExecutor.map, hlock, hq]
    rw [← hflag]

/-- C3 witness: a pool executor mapping the squaring task over one
iterable, with completion times in reverse submission order. -/
theorem C3_map_pool_completion_order_witness :
    ∃ s' pool' yielded,
      exPool.map (fun f => 10 - f) 0 sqTask [[2, 3, 4]] none =
        .ok (s', yielded, false) ∧
      s'.actor_pool = some pool' ∧
      List.Perm yielded pool'.outstanding ∧
      List.Pairwise (fun a b => (10 - a : Nat) ≤ 10 - b) yielded :=
  C3_map_pool_completion_order exPool pool0 (fun f => 10 - f) 0 sqTask
    [[2, 3, 4]] rfl rfl

/-- C4: `map` with `timeout = t` called at absolute time `t0` bounds the
whole produced sequence by the absolute deadline `t + t0` (each
per-element wait gets the remaining budget): consuming the sequence
raises `Timeout` exactly when some awaited future completes after the
deadline, in both the fixed-pool and the no-pool configuration, and every
result actually yielded was awaited within the deadline. -/
theorem C4_map_total_timeout (s : RayExecutor) (ctime : Nat → Nat) (t0 t : Nat)
    (fn : Fn) (its : List (List Val)) (hlock : s.shutdown_lock = false) :
    ∃ s' yielded timedOut,
      s.map ctime t0 fn its (some t) = .ok (s', yielded, timedOut) ∧
      (timedOut = true ↔ ∃ f ∈ s.mapAwaitList fn its, t + t0 < ctime f) ∧
      (∀ f ∈ yielded, ctime f ≤ t + t0) := by
  rcases hq : ((s.submitAll fn (pyZip its)).1).actor_pool with _ | pool'
  · refine ⟨(s.submitAll fn (pyZip its)).1,
            (noPoolDrain ctime (some (t + t0)) (s.submitAll fn (pyZip its)).2).1,
            (noPoolDrain ctime (some (t + t0)) (s.submitAll fn (pyZip its)).2).2,
            ?_, ?_, ?_⟩
    · simp [RayExecutor.map, hlock, hq]
    · rw [noPoolDrain_timeout_iff]
      simp only [RayExecutor.mapAwaitList, hq]
    · exact noPoolDrain_yield_le ctime (t + t0) _
  · refine ⟨(s.submitAll fn (pyZip its)).1,
            (poolDrain ctime (some (t + t0)) pool'.outstanding).1,
            (poolDrain ctime (some (t + t0)) pool'.outstanding).2,
            ?_, ?_, ?_⟩
    · simp [RayExecutor.map, hlock, hq]
    · rw [poolDrain_timeout_iff]
      simp only [RayExecutor.mapAwaitList, hq]
    · exact poolDrain_yield_le ctime (t + t0) _

/-- C4 witness: a pool-less executor, two tasks, deadline 5. -/
theorem C4_map_total_timeout_witness :
    ∃ s' yielded timedOut,
      exNoPool.map (fun f => f) 0 sqTask [[1, 2]] (some 5) =
        .ok (s', yielded, timedOut) ∧
      (timedOut = true ↔
        ∃ f ∈ exNoPool.mapAwaitList sqTask [[1, 2]], 5 + 0 < f) ∧
      (∀ f ∈ yielded, f ≤ 5 + 0) :=
  C4_map_total_timeout exNoPool (fun f => f) 0 5 sqTask [[1, 2]] rfl

/-- C5: starting from a freshly constructed executor, after any sequence
of API calls `submit` fails with `IllegalState` exactly when the executor
was constructed with the backend-destroying flag and some `shutdown` call
occurred; otherwise `submit` still succeeds. -/
theorem C5_submit_illegal_iff_destroying_shutdown (mw : Option Int) (d : Bool)
    (s0 : RayExecutor) (h : RayExecutor.init mw d = .ok s0)
    (ops : List Op) (fn : Fn) (args : List Val) :
    ((runOps s0 ops).submit fn args = .error .illegalState ↔
      (d && ops.any Op.isShutdown) = true) ∧
    (((runOps s0 ops).submit fn args).isOk = !(d && ops.any Op.isShutdown)) := by
  obtain ⟨hl, hr⟩ := init_ok_flags mw d s0 h
  have hs : (runOps s0 ops).shutdown_lock = (d && ops.any Op.isShutdown) := by
    rw [runOps_lock ops s0, hl, hr]
    simp
  cases hb : (d && ops.any Op.isShutdown) <;> rw [hb] at hs <;>
    simp [RayExecutor.submit, hs, Except.isOk, Except.toBool]

/-- C5 witness: after one destroying `shutdown` on a fresh
`shutdown_ray = True` executor, `submit` fails with `IllegalState`. -/
theorem C5_submit_illegal_iff_destroying_shutdown_witness :
    ((runOps exShutRay [Op.shutdownOp true false]).submit sqTask [1] =
        .error .illegalState ↔
      (true && [Op.shutdownOp true false].any Op.isShutdown) = true) ∧
    (((runOps exShutRay [Op.shutdownOp true false]).submit sqTask [1]).isOk =
      !(true && [Op.shutdownOp true false].any Op.isShutdown)) :=
  C5_submit_illegal_iff_destroying_shutdown none true exShutRay rfl
    [Op.shutdownOp true false] sqTask [1]

/-- C6: every `map` call performs all its submissions eagerly: the state
returned by the call itself — before the produced sequence is consumed —
already holds one new future per tuple of the positional zip of the
iterables (the shortest iterable bounds the count), appended to the
outstanding list, in both configurations. -/
theorem C6_map_submits_all_eagerly (s : RayExecutor) (ctime : Nat → Nat)
    (t0 : Nat) (fn : Fn) (its : List (List Val)) (timeout : Option Nat)
    (hlock : s.shutdown_lock = false) :
    ∃ s' out, s.map ctime t0 fn its timeout = .ok (s', out) ∧
      ∃ fids : List Nat, s'.futures = s.futures ++ fids ∧
        fids.length = (pyZip its).length ∧ (pyZip its).length = minLen its := by
  obtain ⟨out, hout⟩ := map_ok_state s ctime t0 fn its timeout hlock
  exact ⟨(s.submitAll fn (pyZip its)).1, out, hout, (s.submitAll fn (pyZip its)).2,
    submitAll_futures fn (pyZip its) s, submitAll_length fn (pyZip its) s,
    pyZip_length its⟩

/-- C6 witness: mapping over two zipped iterables of lengths 3 and 2. -/
theorem C6_map_submits_all_eagerly_witness :
    ∃ s' out, exNoPool.map (fun f => f) 0 sqTask [[1, 2, 3], [4, 5]] none =
        .ok (s', out) ∧
      ∃ fids : List Nat, s'.futures = exNoPool.futures ++ fids ∧
        fids.length = (pyZip [[1, 2, 3], [4, 5]]).length ∧
        (pyZip [[1, 2, 3], [4, 5]]).length = minLen [[1, 2, 3], [4, 5]] :=
  C6_map_submits_all_eagerly exNoPool (fun f => f) 0 sqTask
    [[1, 2, 3], [4, 5]] none rfl

/-- C7: when the destroy-backend flag is false, `shutdown` — for any
argument values — attempts no cancellation, inspects no future in a wait
loop, performs no backend teardown, and only clears the `futures` list;
every previously issued handle resolves to exactly what it did before. -/
theorem C7_nondestructive_shutdown_frame (s : RayExecutor) (w c : Bool)
    (h : s.shutdown_ray = false) :
    s.shutdown w c = ({ s with futures := [] },
      { cancel_attempted := [], waited_on := [], ray_teardown := false }) ∧
    ∀ fid, ((s.shutdown w c).1).result fid = s.result fid := by
  constructor
  · simp [RayExecutor.shutdown, h]
  · intro fid
    simp [RayExecutor.shutdown, h, RayExecutor.result]

/-- C7 witness: non-destructive shutdown of a fresh executor with
`wait = True` and `cancel_futures = True`. -/
theorem C7_nondestructive_shutdown_frame_witness :
    exNoPool.shutdown true true = ({ exNoPool with futures := [] },
      { cancel_attempted := [], waited_on := [], ray_teardown := false }) ∧
    ∀ fid, ((exNoPool.shutdown true true).1).result fid = exNoPool.result fid :=
  C7_nondestructive_shutdown_frame exNoPool true true rfl

/-- C8: `shutdown` is idempotent: a second call, with any argument values,
raises no error (it is a total function), leaves the state exactly as the
first call left it, and touches no future (it attempts no cancellation and
inspects nothing in its wait loop). -/
theorem C8_shutdown_idempotent (s : RayExecutor) (w c w' c' : Bool) :
    ((s.shutdown w c).1.shutdown w' c').1 = (s.shutdown w c).1 ∧
    ((s.shutdown w c).1.shutdown w' c').2.cancel_attempted = [] ∧
    ((s.shutdown w c).1.shutdown w' c').2.waited_on = [] := by
  by_cases h : s.shutdown_ray <;> simp [RayExecutor.shutdown, h]

/-- C9: construction fails with `InvalidArgument` for every worker count
below 1, and for every worker count at least 1 it succeeds and builds a
fixed pool of exactly that many worker handles. -/
theorem C9_init_worker_count (n : Int) (d : Bool) :
    (n < 1 → RayExecutor.init (some n) d = .error .invalidArgument) ∧
    (1 ≤ n → ∃ s pool, RayExecutor.init (some n) d = .ok s ∧
       s.actor_pool = some pool ∧ (pool.idle_actors.length : Int) = n) := by
  constructor
  · intro h
    simp [RayExecutor.init, h]
  · intro h
    have hn : ¬ n < 1 := not_lt.mpr h
    refine ⟨{ store := [], shutdown_ray := d, shutdown_lock := false,
              futures := [],
              actor_pool := some { idle_actors := List.range n.toNat,
                                   next_task_index := 0,
                                   index_to_future := [], outstanding := [] },
              ray_destroyed := false },
            { idle_actors := List.range n.toNat, next_task_index := 0,
              index_to_future := [], outstanding := [] }, ?_, rfl, ?_⟩
    · simp [RayExecutor.init, hn]
    · simp only [List.length_range]
      exact Int.toNat_of_nonneg (le_trans zero_le_one h)

/-- C9 witness: `max_workers = 0` is rejected and `max_workers = 2`
builds a two-handle pool. -/
theorem C9_init_worker_count_witness :
    RayExecutor.init (some 0) false = .error .invalidArgument ∧
    ∃ s pool, RayExecutor.init (some 2) false = .ok s ∧
      s.actor_pool = some pool ∧ (pool.idle_actors.length : Int) = 2 :=
  ⟨(C9_init_worker_count 0 false).1 (by decide),
   (C9_init_worker_count 2 false).2 (by decide)⟩

/-- C10: once the shutdown lock is set, `map` fails synchronously with the
very same `IllegalState` error as `submit` — the error value is returned
in place of any new state, so no submission has occurred. -/
theorem C10_map_blocked_after_destroying_shutdown (s : RayExecutor)
    (h : s.shutdown_lock = true) (ctime : Nat → Nat) (t0 : Nat) (fn : Fn)
    (its : List (List Val)) (timeout : Option Nat) (args : List Val) :
    s.map ctime t0 fn its timeout = .error .illegalState ∧
    s.submit fn args = .error .illegalState := by
  simp [RayExecutor.map, RayExecutor.submit, h]

/-- C10 witness: a locked executor rejects both `map` and `submit`. -/
theorem C10_map_blocked_after_destroying_shutdown_witness :
    exLocked.map (fun f => f) 0 sqTask [[1]] none = .error .illegalState ∧
    exLocked.submit sqTask [1] = .error .illegalState :=
  C10_map_blocked_after_destroying_shutdown exLocked rfl (fun f => f) 0 sqTask
    [[1]] none [1]

end RayExec
